import Mathlib

/-!
# Verification of `contrib-tracker.py`

A shallow embedding of the core of the Launchpad contribution tracker:
the time-window filter `in_window`, the project aggregator's merge-proposal
collection, the user report builder's merge-proposal collection, the
per-user vote rendering, the memoizing remote-object wrapper `LPWrap`,
and the output-format dispatcher `output_data`.

Timestamps are modelled as naive instants measured in microseconds
(`Int`), matching Python `datetime`'s resolution; the process-start
instant `UTCNOW` is threaded through as an explicit `now` parameter.
A missing timestamp is `none`.
-/

namespace ContribTracker

/-- One day as a `datetime.timedelta`, in microseconds. -/
def dayLen : Int := 86400000000

/-- Embedding of `in_window(window, date)` (contrib-tracker.py:169-178):
`win = timedelta(window)`; `None` dates return `False`; otherwise the
timezone-stripped date is compared as `UTCNOW - date <= win`.
Dates are modelled already-naive (the `tzinfo=None` strip is identity). -/
def in_window (now : Int) (window : Int) (date : Option Int) : Bool :=
  match date with
  | none => false
  | some d => decide (now - d ≤ window * dayLen)

/-! ## Data model for merge proposals and votes -/

/-- The comment object carried by a vote; `comment.vote` is the vote value. -/
structure VoteComment where
  vote : String
deriving Repr, DecidableEq

/-- A vote on a merge proposal: `vote.reviewer.display_name` and the
optional `vote.comment` (Python truth-tests `v.comment`, i.e. non-`None`). -/
structure Vote where
  reviewer_display_name : String
  comment : Option VoteComment
deriving Repr, DecidableEq

/-- A merge proposal as the code consumes it: `date_created` (optional
timestamp), `web_link`, and its list of votes in fetch order. -/
structure MP where
  date_created : Option Int
  web_link : String
  votes : List Vote
deriving Repr, DecidableEq

/-- The in-window check applied to a proposal's creation date, as used at
contrib-tracker.py:53 and contrib-tracker.py:126. -/
def inWin (now window : Int) (mp : MP) : Bool := in_window now window mp.date_created

/-- The fixed status order used by `Project.__init__` (contrib-tracker.py:28-33). -/
def projectReviewStatus : List String :=
  ["Needs review", "Approved", "Rejected", "Merged"]

/-- The fixed eight-status order iterated by `Report._render_merge_proposals`
(contrib-tracker.py:114-123). -/
def userMPStatus : List String :=
  ["Work in progress", "Needs review", "Approved", "Rejected", "Merged",
   "Code failed to merge", "Queued", "Superseded"]

/-! ## Project aggregator: `Project._render_merge_proposals` -/

/-- The inner loop of `Project._render_merge_proposals`
(contrib-tracker.py:52-54): append each proposal passing `in_window`;
no early exit. -/
def filterWindow (now window : Int) : List MP → List MP
  | [] => []
  | mp :: rest =>
    if in_window now window mp.date_created then
      mp :: filterWindow now window rest
    else
      filterWindow now window rest

/-- Embedding of `Project._render_merge_proposals` (contrib-tracker.py:40-55):
for each status in `projectReviewStatus`, fetch the proposals and keep the
in-window ones, accumulating into one list. `fetch` stands for
`self.project.getMergeProposals(status=...)`. -/
def renderProjectMPs (now window : Int) (fetch : String → List MP) : List MP :=
  projectReviewStatus.foldl (fun acc s => acc ++ filterWindow now window (fetch s)) []

/-! ## User report builder: `Report._render_merge_proposals` -/

/-- `defaultdict(list)` update `proposals[project].append(web_link)`
(contrib-tracker.py:129): append to the existing key's list, or create the
key (at the end, matching dict insertion order) with a singleton list. -/
def appendMP : List (String × List String) → String → String → List (String × List String)
  | [], k, v => [(k, [v])]
  | (k', vs) :: rest, k, v =>
    if k' = k then (k', vs ++ [v]) :: rest else (k', vs) :: appendMP rest k v

/-- Helper for `pySplitSlash`: scan the characters, cutting at every `/`,
with the current segment accumulated in reverse. -/
def splitSlashAux : List Char → List Char → List String
  | [], acc => [String.mk acc.reverse]
  | c :: rest, acc =>
    if c = '/' then String.mk acc.reverse :: splitSlashAux rest []
    else splitSlashAux rest (c :: acc)

/-- Python's `str.split("/")` with an explicit separator: split at every
occurrence, preserving empty segments; a string with no separator yields a
one-element list. -/
def pySplitSlash (s : String) : List String := splitSlashAux s.data []

/-- Inner loop of `Report._render_merge_proposals` (contrib-tracker.py:125-129)
over one status's fetched proposals: `break` on the first out-of-window
proposal; otherwise take `mp.web_link.split("/")[4]` as the project name
(`.error ()` models the `IndexError` when the link has fewer than 5
segments) and append the link under it. -/
def addMPs (now window : Int) :
    List (String × List String) → List MP → Except Unit (List (String × List String))
  | d, [] => .ok d
  | d, mp :: rest =>
    if in_window now window mp.date_created then
      match (pySplitSlash mp.web_link)[4]? with
      | none => .error ()
      | some project => addMPs now window (appendMP d project mp.web_link) rest
    else
      .ok d

/-- Outer loop of `Report._render_merge_proposals` (contrib-tracker.py:114-124):
iterate the eight statuses in order, threading the proposals dict; an
`IndexError` raised inside a status's loop aborts the whole rendering. -/
def reportLoop (now window : Int) (fetch : String → List MP) :
    List String → List (String × List String) → Except Unit (List (String × List String))
  | [], d => .ok d
  | s :: rest, d =>
    match addMPs now window d (fetch s) with
    | .error e => .error e
    | .ok d' => reportLoop now window fetch rest d'

/-- Embedding of `Report._render_merge_proposals` (contrib-tracker.py:108-130).
`fetch` stands for `self.user.getMergeProposals(status=...)`. -/
def renderReportMPs (now window : Int) (fetch : String → List MP) :
    Except Unit (List (String × List String)) :=
  reportLoop now window fetch userMPStatus []

/-! ## Vote rendering: `Project.render_project_votes_by_user` -/

/-- Plain dict assignment `votes[k] = v`: overwrite in place, or append the
new key at the end (dict insertion order). -/
def dictSet : List (String × String) → String → String → List (String × String)
  | [], k, v => [(k, v)]
  | (k', v') :: rest, k, v =>
    if k' = k then (k', v) :: rest else (k', v') :: dictSet rest k v

/-- Dict lookup for the model above. -/
def lookupS : List (String × String) → String → Option String
  | [], _ => none
  | (k', v) :: rest, k => if k' = k then some v else lookupS rest k

/-- Inner loop of `render_project_votes_by_user` (contrib-tracker.py:64-66):
`for vote in [v for v in mp.votes if v.comment]`, then record
`votes[mp.web_link] = vote.comment.vote` when the reviewer's display name
matches the queried user's. -/
def processVotes (userName link : String) :
    List (String × String) → List Vote → List (String × String)
  | d, [] => d
  | d, v :: rest =>
    match v.comment with
    | none => processVotes userName link d rest
    | some c =>
      if v.reviewer_display_name = userName then
        processVotes userName link (dictSet d link c.vote) rest
      else
        processVotes userName link d rest

/-- Embedding of `Project.render_project_votes_by_user`
(contrib-tracker.py:57-67) over the retained merge-proposal list. -/
def render_project_votes_by_user (userName : String) (mps : List MP) :
    List (String × String) :=
  mps.foldl (fun d mp => processVotes userName mp.web_link d mp.votes) []

/-- Specification helper: the values of the commented votes on one
proposal whose reviewer display name matches, in fetch order. -/
def matchVals (userName : String) (votes : List Vote) : List String :=
  votes.filterMap fun v =>
    match v.comment with
    | some c => if v.reviewer_display_name = userName then some c.vote else none
    | none => none

/-- Specification helper: all matching vote values recorded under link
`lnk`, over the proposals carrying that link, in fetch order. -/
def collectVals (userName lnk : String) (mps : List MP) : List String :=
  (mps.filter fun mp => mp.web_link = lnk).flatMap fun mp => matchVals userName mp.votes

/-! ## Remote object adapter: `LPWrap`

Remote objects are modelled as trees: an `Entry` (the launchpadlib class
name tag checked at contrib-tracker.py:163) with named attributes, or a
plain scalar value. An `LPWrap` instance is a wrapped object together
with its per-instance attribute cache; cached values are either raw
values or nested wrappers (which carry their own caches). Mutation of a
nested wrapper is modelled by writing the updated wrapper back into the
parent's cache slot, matching Python's aliasing of the cached object. -/

/-- A remote value: an `Entry` (remote entity, carrying attributes) or a
plain scalar. -/
inductive RVal where
  | entry : List (String × RVal) → RVal
  | scalar : String → RVal
deriving Repr

/-- Attribute lookup on the remote side (`getattr(self.lpObj, attr)`);
`none` models `AttributeError`, and attribute access on a plain scalar is
out of the modelled scope. -/
def lookupR : List (String × RVal) → String → Option RVal
  | [], _ => none
  | (k, r) :: rest, a => if k = a then some r else lookupR rest a

/-- Fetch an attribute from a remote value. -/
def RVal.getA : RVal → String → Option RVal
  | .entry attrs, a => lookupR attrs a
  | .scalar _, _ => none

/-- A cached value in an `LPWrap` instance: a raw value, or a nested
wrapper (wrapped object plus its own cache). -/
inductive CVal where
  | raw : RVal → CVal
  | sub : RVal → List (String × CVal) → CVal
deriving Repr

/-- Cache lookup (Python instance `__dict__` lookup: `__getattr__` only
runs when this misses). -/
def lookupC : List (String × CVal) → String → Option CVal
  | [], _ => none
  | (k, c) :: rest, a => if k = a then some c else lookupC rest a

/-- Replace the cache slot for `a` (or append it), used for writing an
updated nested wrapper back into its parent's cache. -/
def upsertC : List (String × CVal) → String → CVal → List (String × CVal)
  | [], a, c => [(a, c)]
  | (k, c') :: rest, a, c =>
    if k = a then (k, c) :: rest else (k, c') :: upsertC rest a c

/-- Embedding of one attribute access on an `LPWrap` instance
(contrib-tracker.py:155-166): a cache hit returns the cached value with
zero fetches; a miss fetches from the wrapped object (count 1), wraps the
result when its class tag is `Entry`, caches it via `setattr`, and returns
it. The result is `(value, updated cache, fetch count)`. -/
def wrapC : RVal → CVal
  | RVal.entry attrs => CVal.sub (RVal.entry attrs) []
  | r => CVal.raw r

def getattrW (obj : RVal) (cache : List (String × CVal)) (a : String) :
    Option (CVal × List (String × CVal) × Nat) :=
  match lookupC cache a with
  | some v => some (v, cache, 0)
  | none =>
    match obj.getA a with
    | none => none
    | some r => some (wrapC r, cache ++ [(a, wrapC r)], 1)

/-- Chained attribute access (`task.bug.title`): access each hop in turn,
descending into nested wrappers; updates to a nested wrapper's cache are
written back into the parent's cache slot (Python stores the very same
wrapper object there). Returns the final value, the updated top-level
cache, and the total number of remote fetches. -/
def getPath (obj : RVal) (cache : List (String × CVal)) :
    List String → Option (CVal × List (String × CVal) × Nat)
  | [] => none
  | [a] => getattrW obj cache a
  | a :: b :: rest =>
    match getattrW obj cache a with
    | none => none
    | some (v, cache1, n) =>
      match v with
      | CVal.raw _ => none
      | CVal.sub o c =>
        match getPath o c (b :: rest) with
        | none => none
        | some (v', c', m) => some (v', upsertC cache1 a (CVal.sub o c'), n + m)

/-! ## Report serializer: `output_data` -/

/-- Python's `str.lower()` (ASCII case mapping, character by character). -/
def pyLower (s : String) : String := String.mk (s.data.map Char.toLower)

/-- Embedding of `output_data(report, format)` (contrib-tracker.py:181-189).
The external library encodings of the report are abstracted as parameters:
`yamlText` stands for `yaml.dump(report, default_flow_style=False)` (block
style) and `jsonText` for `json.dumps(report)` (compact, default
separators). The format string is lowercased; an unrecognized format
raises `NotImplementedError`, modelled as `.error ()`. -/
def output_data (yamlText jsonText : String) (format : String) : Except Unit String :=
  let f := pyLower format
  if f = "yaml" then .ok yamlText
  else if f = "json" then .ok jsonText
  else .error ()

end ContribTracker

namespace ContribTracker

/-! ## Claims about `in_window` -/

/-- C1. For every window `W ≥ 0` and timestamp `T`, `in_window` is false
when `T` is absent; true when `T` equals `now`; true when `T` is in the
past by at most `W` days; false when `T` is in the past by more than `W`
days; and true for every future `T`. -/
theorem in_window_spec (now W T : Int) (hW : 0 ≤ W) :
    in_window now W none = false ∧
    in_window now W (some now) = true ∧
    (0 ≤ now - T → now - T ≤ W * dayLen → in_window now W (some T) = true) ∧
    (now - T > W * dayLen → in_window now W (some T) = false) ∧
    (now < T → in_window now W (some T) = true) := by
  have hday : (0:Int) < dayLen := by norm_num [dayLen]
  have hWd : 0 ≤ W * dayLen := mul_nonneg hW (le_of_lt hday)
  refine ⟨rfl, ?_, ?_, ?_, ?_⟩
  · simp [in_window, hWd]
  · intro _ h2
    simp [in_window, h2]
  · intro h
    simp [in_window]
    omega
  · intro h
    have : now - T ≤ W * dayLen := by omega
    simp [in_window, this]

/-- Witness for C1 at `now = 0`, `W = 8`, `T = -3*dayLen` (3 days ago). -/
theorem in_window_spec_witness :
    (0:Int) ≤ 8 ∧
    (in_window 0 8 none = false ∧
     in_window 0 8 (some 0) = true ∧
     (0 ≤ (0:Int) - (-3 * dayLen) → (0:Int) - (-3 * dayLen) ≤ 8 * dayLen →
       in_window 0 8 (some (-3 * dayLen)) = true) ∧
     ((0:Int) - (-3 * dayLen) > 8 * dayLen → in_window 0 8 (some (-3 * dayLen)) = false) ∧
     ((0:Int) < -3 * dayLen → in_window 0 8 (some (-3 * dayLen)) = true)) :=
  ⟨by norm_num, in_window_spec 0 8 (-3 * dayLen) (by norm_num)⟩

/-- C6 counterexample: the claim says `in_window(W, T)` is true exactly when
`now − W·day < T ≤ now`. At `now = 0`, `W = 8`, `T = dayLen` (one day in
the future) the code returns true while `T ≤ now` fails, so the claimed
biconditional is false at this input. -/
theorem in_window_halfopen_cex :
    ¬ (in_window 0 8 (some dayLen) = true ↔
        (0 - 8 * dayLen < dayLen ∧ dayLen ≤ 0)) := by
  decide

/-- C6 amended: for present timestamps, `in_window(W, T)` is true exactly
when `now − W` days `≤ T` — a closed lower bound and no upper bound (the
boundary point `now − W` days passes, and every future timestamp passes). -/
theorem in_window_interval (now W T : Int) :
    in_window now W (some T) = true ↔ now - W * dayLen ≤ T := by
  simp [in_window]
  omega

/-- C7 counterexample: the claim says that with `W = 0` every present
timestamp other than exact-`now` is rejected, but the future timestamp
`T = now + dayLen` (with `now = 0`) is accepted by the code. -/
theorem in_window_zero_cex :
    (dayLen : Int) ≠ 0 ∧ in_window 0 0 (some dayLen) = true := by
  decide

/-- C7 amended: for `W ≤ 0`, `in_window(W, T)` is true exactly when `T` is
at least `|W|` days in the future (`now − W·day ≤ T`): false for every past
timestamp, true at exact-`now` only when `W = 0` (for `W < 0` even
exact-`now` fails), and true for sufficiently far future timestamps. -/
theorem in_window_nonpos (now W T : Int) (hW : W ≤ 0) :
    (T < now → in_window now W (some T) = false) ∧
    (W = 0 → in_window now W (some now) = true) ∧
    (W < 0 → in_window now W (some now) = false) ∧
    (in_window now W (some T) = true ↔ now - W * dayLen ≤ T) := by
  have hday : (0:Int) < dayLen := by norm_num [dayLen]
  have hWd : W * dayLen ≤ 0 := mul_nonpos_of_nonpos_of_nonneg hW (le_of_lt hday)
  refine ⟨?_, ?_, ?_, ?_⟩
  · intro h
    simp [in_window]
    omega
  · intro h
    simp [in_window, h]
  · intro h
    have : W * dayLen < 0 := mul_neg_of_neg_of_pos h hday
    simp [in_window]
    omega
  · simp [in_window]
    omega

/-! ## Claims about the project aggregator and the report builder -/

theorem filterWindow_eq_filter (now window : Int) (l : List MP) :
    filterWindow now window l = l.filter (inWin now window) := by
  induction l with
  | nil => rfl
  | cons mp rest ih =>
    by_cases h : in_window now window mp.date_created
    · simp [filterWindow, List.filter, inWin, h, ih]
    · simp [filterWindow, List.filter, inWin, h, ih]

theorem renderProjectMPs_eq (now window : Int) (fetch : String → List MP) :
    renderProjectMPs now window fetch =
      projectReviewStatus.flatMap fun s => (fetch s).filter (inWin now window) := by
  simp [renderProjectMPs, projectReviewStatus, filterWindow_eq_filter]

/-- C4. The project aggregator iterates the fixed status order
`["Needs review", "Approved", "Rejected", "Merged"]` and retains exactly
the fetched proposals passing the window filter — a full filter over every
fetched proposal, not an early exit; on the fixture with creation dates
[10 days ago, 3 days ago, today] and window 8, exactly the latter two are
retained. -/
theorem project_render_full_filter :
    (∀ (now window : Int) (fetch : String → List MP),
      renderProjectMPs now window fetch =
        projectReviewStatus.flatMap fun s => (fetch s).filter (inWin now window)) ∧
    renderProjectMPs 0 8
        (fun s => if s = "Needs review" then
            [⟨some (-10 * dayLen), "a", []⟩, ⟨some (-3 * dayLen), "b", []⟩,
             ⟨some 0, "c", []⟩]
          else []) =
      [⟨some (-3 * dayLen), "b", []⟩, ⟨some 0, "c", []⟩] :=
  ⟨renderProjectMPs_eq, by decide⟩

/-- C10. Neither collection deduplicates across statuses: the number of
occurrences of a link in the project aggregator's result is the sum over
the four statuses of its in-window occurrences in that status's fetch, and
a proposal returned under two statuses shows up twice — both in the
project aggregator's list and in the report builder's per-project link
list. -/
theorem no_dedup_across_statuses :
    (∀ (now window : Int) (fetch : String → List MP) (lnk : String),
      ((renderProjectMPs now window fetch).map MP.web_link).count lnk =
        (projectReviewStatus.map fun s =>
          (((fetch s).filter (inWin now window)).map MP.web_link).count lnk).sum) ∧
    renderProjectMPs 0 8
        (fun s => if s = "Needs review" ∨ s = "Approved" then [⟨some 0, "L", []⟩] else []) =
      [⟨some 0, "L", []⟩, ⟨some 0, "L", []⟩] ∧
    renderReportMPs 0 8
        (fun s => if s = "Needs review" ∨ s = "Approved" then
            [⟨some 0, "https://code.launchpad.net/~u/proj/+git/r/+merge/1", []⟩]
          else []) =
      .ok [("proj", ["https://code.launchpad.net/~u/proj/+git/r/+merge/1",
                     "https://code.launchpad.net/~u/proj/+git/r/+merge/1"])] := by
  refine ⟨?_, by decide, ?_⟩
  · intro now window fetch lnk
    simp [renderProjectMPs_eq, projectReviewStatus, List.count_append]
  · rfl

theorem addMPs_takeWhile (now window : Int) (mps : List MP) :
    ∀ d, addMPs now window d mps = addMPs now window d (mps.takeWhile (inWin now window)) := by
  induction mps with
  | nil => intro d; rfl
  | cons mp rest ih =>
    intro d
    by_cases h : in_window now window mp.date_created
    · rw [List.takeWhile_cons]
      simp only [inWin, h, if_true]
      simp only [addMPs, h, if_true]
      cases (pySplitSlash mp.web_link)[4]? with
      | none => rfl
      | some project => exact ih _
    · rw [List.takeWhile_cons]
      simp [inWin, h, addMPs]

theorem reportLoop_takeWhile (now window : Int) (fetch : String → List MP)
    (ss : List String) :
    ∀ d, reportLoop now window fetch ss d =
      reportLoop now window (fun s => (fetch s).takeWhile (inWin now window)) ss d := by
  induction ss with
  | nil => intro d; rfl
  | cons s rest ih =>
    intro d
    simp only [reportLoop]
    rw [← addMPs_takeWhile]
    cases addMPs now window d (fetch s) with
    | error e => rfl
    | ok d' => exact ih d'

/-- C2. The report builder's merge-proposal collection stops, within each
status's fetched list, at the first proposal failing the window check:
rendering a fetch is the same as rendering only each status's in-window
prefix (everything after the first out-of-window proposal is dropped, even
if itself in-window). On the fixture [today, today, 20 days ago, today]
with window 8, exactly the first two links are retained. -/
theorem report_render_early_exit :
    (∀ (now window : Int) (fetch : String → List MP),
      renderReportMPs now window fetch =
        renderReportMPs now window
          (fun s => (fetch s).takeWhile (inWin now window))) ∧
    renderReportMPs 0 8
        (fun s => if s = "Needs review" then
            [⟨some 0, "https://code.launchpad.net/~u/proj/+git/r/+merge/1", []⟩,
             ⟨some 0, "https://code.launchpad.net/~u/proj/+git/r/+merge/2", []⟩,
             ⟨some (-20 * dayLen), "https://code.launchpad.net/~u/proj/+git/r/+merge/3", []⟩,
             ⟨some 0, "https://code.launchpad.net/~u/proj/+git/r/+merge/4", []⟩]
          else []) =
      .ok [("proj", ["https://code.launchpad.net/~u/proj/+git/r/+merge/1",
                     "https://code.launchpad.net/~u/proj/+git/r/+merge/2"])] := by
  refine ⟨?_, ?_⟩
  · intro now window fetch
    exact reportLoop_takeWhile now window fetch userMPStatus []
  · rfl

theorem addMPs_malformed (now window : Int) (mps : List MP) (mp : MP)
    (hbad : (pySplitSlash mp.web_link)[4]? = none) :
    ∀ d, mp ∈ mps.takeWhile (inWin now window) →
      addMPs now window d mps = .error () := by
  induction mps with
  | nil => intro d hmem; simp [List.takeWhile] at hmem
  | cons a rest ih =>
    intro d hmem
    rw [List.takeWhile_cons] at hmem
    by_cases h : inWin now window a
    · simp only [h, if_true, List.mem_cons] at hmem
      have ha : in_window now window a.date_created = true := h
      rcases hmem with heq | hmem
      · subst heq
        simp [addMPs, ha, hbad]
      · simp only [addMPs, ha, if_true]
        cases hp : (pySplitSlash a.web_link)[4]? with
        | none => rfl
        | some project => exact ih _ hmem
    · simp [h] at hmem

theorem reportLoop_malformed (now window : Int) (fetch : String → List MP)
    (s : String) (mp : MP)
    (hmp : mp ∈ (fetch s).takeWhile (inWin now window))
    (hbad : (pySplitSlash mp.web_link)[4]? = none) :
    ∀ (ss : List String) d, s ∈ ss →
      reportLoop now window fetch ss d = .error () := by
  intro ss
  induction ss with
  | nil => intro d hs; simp at hs
  | cons s0 rest ih =>
    intro d hs
    simp only [reportLoop]
    cases hadd : addMPs now window d (fetch s0) with
    | error e => rfl
    | ok d' =>
      rcases List.mem_cons.mp hs with heq | hmem
      · rw [← heq] at hadd
        rw [addMPs_malformed now window (fetch s) mp hbad d hmp] at hadd
        exact absurd hadd (by simp)
      · exact ih d' hmem

/-- C9. When a fetched (and window-retained) proposal's web link splits
into fewer than 5 path segments, the report builder's project-name
derivation (`web_link.split("/")[4]`) raises an `IndexError` that aborts
the whole merge-proposal rendering — the malformed link is never silently
skipped. -/
theorem report_malformed_link_error (now window : Int) (fetch : String → List MP)
    (s : String) (hs : s ∈ userMPStatus) (mp : MP)
    (hmp : mp ∈ (fetch s).takeWhile (inWin now window))
    (hbad : (pySplitSlash mp.web_link).length < 5) :
    renderReportMPs now window fetch = .error () := by
  have hnone : (pySplitSlash mp.web_link)[4]? = none :=
    List.getElem?_eq_none (by omega)
  exact reportLoop_malformed now window fetch s mp hmp hnone userMPStatus [] hs

/-- Witness for C9: a single proposal with link `"bad"` (one path segment)
fetched in-window under status `"Work in progress"` makes the rendering
fail. -/
theorem report_malformed_link_error_witness :
    ("Work in progress" ∈ userMPStatus ∧
     (⟨some 0, "bad", []⟩ : MP) ∈
       (((fun s => if s = "Work in progress" then [(⟨some 0, "bad", []⟩ : MP)] else [])
          "Work in progress")).takeWhile (inWin 0 8) ∧
     (pySplitSlash (MP.web_link ⟨some 0, "bad", []⟩)).length < 5) ∧
    renderReportMPs 0 8
        (fun s => if s = "Work in progress" then [(⟨some 0, "bad", []⟩ : MP)] else []) =
      .error () :=
  ⟨⟨by decide, by decide, by decide⟩,
   report_malformed_link_error 0 8
     (fun s => if s = "Work in progress" then [(⟨some 0, "bad", []⟩ : MP)] else [])
     "Work in progress" (by decide) ⟨some 0, "bad", []⟩ (by decide) (by decide)⟩

/-! ## Claims about `render_project_votes_by_user` -/

theorem getLast?_cons_or {α : Type} (a : α) (l : List α) :
    (a :: l).getLast? = l.getLast?.or (some a) := by
  have h : a :: l = [a] ++ l := rfl
  rw [h, List.getLast?_append]
  rfl

theorem or_some_or {α : Type} (x : Option α) (b : α) (y : Option α) :
    (x.or (some b)).or y = x.or (some b) := by
  cases x <;> rfl

theorem lookupS_dictSet_self (d : List (String × String)) (k v : String) :
    lookupS (dictSet d k v) k = some v := by
  induction d with
  | nil => simp [dictSet, lookupS]
  | cons p rest ih =>
    obtain ⟨k', v'⟩ := p
    by_cases h : k' = k
    · simp [dictSet, lookupS, h]
    · simp [dictSet, lookupS, h, ih]

theorem lookupS_dictSet_ne (d : List (String × String)) (k v k' : String)
    (h : k' ≠ k) : lookupS (dictSet d k v) k' = lookupS d k' := by
  have h2 : ¬ k = k' := fun e => h e.symm
  induction d with
  | nil => simp [dictSet, lookupS, h2]
  | cons p rest ih =>
    obtain ⟨k0, v0⟩ := p
    by_cases h0 : k0 = k
    · subst h0
      simp [dictSet, lookupS, h2]
    · simp [dictSet, lookupS, h0, ih]

theorem lookupS_processVotes (userName link : String) (votes : List Vote) :
    ∀ d k, lookupS (processVotes userName link d votes) k =
      if k = link then ((matchVals userName votes).getLast?).or (lookupS d link)
      else lookupS d k := by
  induction votes with
  | nil =>
    intro d k
    by_cases h : k = link
    · subst h; simp [processVotes, matchVals]
    · simp [processVotes, h]
  | cons v rest ih =>
    intro d k
    cases hc : v.comment with
    | none =>
      simp only [processVotes, hc]
      rw [ih]
      simp [matchVals, List.filterMap_cons, hc]
    | some c =>
      by_cases hn : v.reviewer_display_name = userName
      · simp only [processVotes, hc, hn, if_true]
        rw [ih]
        by_cases hk : k = link
        · subst hk
          rw [if_pos rfl, if_pos rfl, lookupS_dictSet_self]
          simp only [matchVals, List.filterMap_cons, hc, hn, if_true]
          rw [getLast?_cons_or, or_some_or]
        · simp only [hk, if_false]
          exact lookupS_dictSet_ne d link c.vote k hk
      · simp only [processVotes, hc, hn, if_false]
        rw [ih]
        simp [matchVals, List.filterMap_cons, hc, hn]

theorem lookupS_votes_foldl (userName : String) (mps : List MP) :
    ∀ d k,
      lookupS (mps.foldl (fun d mp => processVotes userName mp.web_link d mp.votes) d) k =
        ((collectVals userName k mps).getLast?).or (lookupS d k) := by
  induction mps with
  | nil => intro d k; simp [collectVals]
  | cons mp rest ih =>
    intro d k
    rw [List.foldl_cons, ih, lookupS_processVotes]
    by_cases hk : mp.web_link = k
    · subst hk
      rw [if_pos rfl]
      have hcol : collectVals userName mp.web_link (mp :: rest) =
          matchVals userName mp.votes ++ collectVals userName mp.web_link rest := by
        simp [collectVals, List.filter_cons, List.flatMap_cons]
      rw [hcol, List.getLast?_append, Option.or_assoc]
    · have hk' : k ≠ mp.web_link := fun e => hk e.symm
      simp only [hk', if_false]
      have hcol : collectVals userName k (mp :: rest) = collectVals userName k rest := by
        simp [collectVals, List.filter_cons, hk]
      rw [hcol]

theorem mem_keys_dictSet (d : List (String × String)) (k v a : String) :
    a ∈ (dictSet d k v).map Prod.fst ↔ a ∈ d.map Prod.fst ∨ a = k := by
  induction d with
  | nil => simp [dictSet]
  | cons p rest ih =>
    obtain ⟨k0, v0⟩ := p
    by_cases h : k0 = k
    · subst h
      simp [dictSet]
      tauto
    · simp only [dictSet, h, if_false, List.map_cons, List.mem_cons, ih]
      tauto

theorem nodup_keys_dictSet (d : List (String × String)) (k v : String)
    (h : (d.map Prod.fst).Nodup) : ((dictSet d k v).map Prod.fst).Nodup := by
  induction d with
  | nil => simp [dictSet]
  | cons p rest ih =>
    obtain ⟨k0, v0⟩ := p
    simp only [List.map_cons, List.nodup_cons] at h
    by_cases hk : k0 = k
    · subst hk
      simpa [dictSet, List.nodup_cons] using h
    · simp only [dictSet, hk, if_false, List.map_cons, List.nodup_cons]
      refine ⟨?_, ih h.2⟩
      rw [mem_keys_dictSet]
      push_neg
      exact ⟨h.1, hk⟩

theorem nodup_keys_processVotes (userName link : String) (votes : List Vote) :
    ∀ d, (d.map Prod.fst).Nodup →
      ((processVotes userName link d votes).map Prod.fst).Nodup := by
  induction votes with
  | nil => intro d h; exact h
  | cons v rest ih =>
    intro d h
    cases hc : v.comment with
    | none => simp only [processVotes, hc]; exact ih d h
    | some c =>
      by_cases hn : v.reviewer_display_name = userName
      · simp only [processVotes, hc, hn, if_true]
        exact ih _ (nodup_keys_dictSet d link c.vote h)
      · simp only [processVotes, hc, hn, if_false]
        exact ih d h

theorem nodup_keys_votes_foldl (userName : String) (mps : List MP) :
    ∀ d, (d.map Prod.fst).Nodup →
      ((mps.foldl (fun d mp => processVotes userName mp.web_link d mp.votes) d).map
        Prod.fst).Nodup := by
  induction mps with
  | nil => intro d h; exact h
  | cons mp rest ih =>
    intro d h
    rw [List.foldl_cons]
    exact ih _ (nodup_keys_processVotes userName mp.web_link mp.votes d h)

/-- C3. `render_project_votes_by_user` records, per retained merge
proposal, only commented votes whose reviewer display name equals the
queried user's, keyed by the proposal's link: the value stored under a
link is the last matching vote value in fetch order over the proposals
carrying that link (`collectVals`), each link key appears at most once,
and on the Approve-then-Disapprove fixture the surviving vote is
"Disapprove". -/
theorem votes_by_user_spec :
    (∀ (userName : String) (mps : List MP) (lnk : String),
      lookupS (render_project_votes_by_user userName mps) lnk =
        (collectVals userName lnk mps).getLast?) ∧
    (∀ (userName : String) (mps : List MP),
      ((render_project_votes_by_user userName mps).map Prod.fst).Nodup) ∧
    render_project_votes_by_user "Alice"
        [⟨some 0, "L", [⟨"Alice", some ⟨"Approve"⟩⟩, ⟨"Alice", some ⟨"Disapprove"⟩⟩]⟩] =
      [("L", "Disapprove")] := by
  refine ⟨?_, ?_, rfl⟩
  · intro userName mps lnk
    rw [render_project_votes_by_user, lookupS_votes_foldl]
    simp [lookupS]
  · intro userName mps
    exact nodup_keys_votes_foldl userName mps [] (by simp)

/-! ## Claims about `LPWrap` and `output_data` -/

theorem lookupC_append_self (cache : List (String × CVal)) (a : String) (c : CVal)
    (h : lookupC cache a = none) : lookupC (cache ++ [(a, c)]) a = some c := by
  induction cache with
  | nil => simp [lookupC]
  | cons p rest ih =>
    obtain ⟨k, c'⟩ := p
    by_cases hk : k = a
    · simp [lookupC, hk] at h
    · simp only [List.cons_append, lookupC, hk, if_false] at h ⊢
      exact ih h

/-- C5. The `LPWrap` cache-proxy: a first access of an uncached attribute
fetches from the wrapped object exactly once, wrapping the value when it
carries the `Entry` type tag before caching; any access repeated on the
resulting instance returns the identical cached value with zero further
fetches and leaves the cache unchanged; and the chained access
`task.bug.title` costs one fetch per hop the first time and zero the
second time, returning the same value. -/
theorem lpwrap_cache_spec :
    (∀ (obj : RVal) (cache : List (String × CVal)) (a : String),
      lookupC cache a = none →
      getattrW obj cache a =
        (obj.getA a).map fun r => (wrapC r, cache ++ [(a, wrapC r)], 1)) ∧
    (∀ (obj : RVal) (cache : List (String × CVal)) (a : String) (v : CVal)
        (cache' : List (String × CVal)) (n : Nat),
      getattrW obj cache a = some (v, cache', n) →
      getattrW obj cache' a = some (v, cache', 0)) ∧
    (getPath (RVal.entry [("bug", RVal.entry [("title", RVal.scalar "T")])]) []
        ["bug", "title"] =
      some (CVal.raw (RVal.scalar "T"),
        [("bug", CVal.sub (RVal.entry [("title", RVal.scalar "T")])
          [("title", CVal.raw (RVal.scalar "T"))])], 2) ∧
     getPath (RVal.entry [("bug", RVal.entry [("title", RVal.scalar "T")])])
        [("bug", CVal.sub (RVal.entry [("title", RVal.scalar "T")])
          [("title", CVal.raw (RVal.scalar "T"))])]
        ["bug", "title"] =
      some (CVal.raw (RVal.scalar "T"),
        [("bug", CVal.sub (RVal.entry [("title", RVal.scalar "T")])
          [("title", CVal.raw (RVal.scalar "T"))])], 0)) := by
  refine ⟨?_, ?_, rfl, rfl⟩
  · intro obj cache a h
    simp only [getattrW, h]
    cases obj.getA a <;> rfl
  · intro obj cache a v cache' n hacc
    cases hl : lookupC cache a with
    | some v0 =>
      simp only [getattrW, hl, Option.some.injEq, Prod.mk.injEq] at hacc
      obtain ⟨hv, hcache, hn⟩ := hacc
      subst hv
      subst hcache
      simp [getattrW, hl]
    | none =>
      cases hg : obj.getA a with
      | none => simp [getattrW, hl, hg] at hacc
      | some r =>
        simp only [getattrW, hl, hg, Option.some.injEq, Prod.mk.injEq] at hacc
        obtain ⟨hv, hcache, hn⟩ := hacc
        subst hv
        subst hcache
        have hfound := lookupC_append_self cache a (wrapC r) hl
        simp [getattrW, hfound]

/-- Witness for C5: accessing attribute `"x"` on a fresh wrapper caches it
(one fetch), and the theorem's repeat-access part applied there yields the
same value with zero fetches. -/
theorem lpwrap_cache_spec_witness :
    getattrW (RVal.entry [("x", RVal.scalar "v")])
        [("x", CVal.raw (RVal.scalar "v"))] "x" =
      some (CVal.raw (RVal.scalar "v"), [("x", CVal.raw (RVal.scalar "v"))], 0) :=
  lpwrap_cache_spec.2.1 (RVal.entry [("x", RVal.scalar "v")]) [] "x"
    (CVal.raw (RVal.scalar "v")) [("x", CVal.raw (RVal.scalar "v"))] 1 rfl

/-- C8. `output_data` lowercases the format string; every format whose
lowercased form is neither "yaml" nor "json" (e.g. "csv") raises the
unimplemented-format error, and the two supported formats — matched
case-insensitively — return the corresponding serialized text without
error (the block-style YAML dump and the compact JSON dump abstracted as
the `yamlText`/`jsonText` parameters). -/
theorem output_data_spec :
    (∀ yamlText jsonText format : String,
      pyLower format ≠ "yaml" → pyLower format ≠ "json" →
        output_data yamlText jsonText format = .error ()) ∧
    (∀ yamlText jsonText format : String,
      pyLower format = "yaml" → output_data yamlText jsonText format = .ok yamlText) ∧
    (∀ yamlText jsonText format : String,
      pyLower format = "json" → output_data yamlText jsonText format = .ok jsonText) ∧
    (∀ yamlText jsonText : String, output_data yamlText jsonText "csv" = .error ()) ∧
    (∀ yamlText jsonText : String, output_data yamlText jsonText "YAML" = .ok yamlText) ∧
    (∀ yamlText jsonText : String, output_data yamlText jsonText "Json" = .ok jsonText) := by
  refine ⟨?_, ?_, ?_, fun y j => rfl, fun y j => rfl, fun y j => rfl⟩
  · intro y j f h1 h2
    simp [output_data, h1, h2]
  · intro y j f h
    simp [output_data, h]
  · intro y j f h
    simp [output_data, h]

/-- Witness for C8 at format `"csv"`: lowercased it is neither supported
format, and the dispatcher signals the unimplemented-format error. -/
theorem output_data_spec_witness :
    (pyLower "csv" ≠ "yaml" ∧ pyLower "csv" ≠ "json") ∧
    output_data "Y" "J" "csv" = .error () :=
  ⟨⟨by decide, by decide⟩, output_data_spec.1 "Y" "J" "csv" (by decide) (by decide)⟩

/-- Witness for C7's amended theorem at `now = 0`, `W = -1`, `T = -dayLen`. -/
theorem in_window_nonpos_witness :
    (-1 : Int) ≤ 0 ∧
    (((-dayLen : Int) < 0 → in_window 0 (-1) (some (-dayLen)) = false) ∧
     ((-1 : Int) = 0 → in_window 0 (-1) (some 0) = true) ∧
     ((-1 : Int) < 0 → in_window 0 (-1) (some 0) = false) ∧
     (in_window 0 (-1) (some (-dayLen)) = true ↔ (0:Int) - (-1) * dayLen ≤ -dayLen)) :=
  ⟨by norm_num, in_window_nonpos 0 (-1) (-dayLen) (by norm_num)⟩

end ContribTracker
